import Mathlib

/-!
Shallow embedding of the pyobs-pilar driver core (pyobs_pilar/pilardriver.py
and pyobs_pilar/pilarerror.py) and proofs about its behaviour.

Protocol lines are modelled as `List Char`.  Python's string operations
(`split`, `find`, `rfind`, slicing, `int()`) are embedded with their Python
semantics, including `find`'s -1 convention and exceptions (`IndexError`,
`ValueError`) modelled through `Except`.
-/

namespace Pilar

/-- Whitespace for Python's no-argument `str.split()`; protocol lines only
contain spaces and tabs. -/
def isWs (c : Char) : Bool := c == ' ' || c == '\t'

/-- Python `str.split(sep)` for a one-character separator: split at every
occurrence, keeping empty pieces. -/
def splitOnC (sep : Char) : List Char → List (List Char)
  | [] => [[]]
  | c :: cs =>
    let r := splitOnC sep cs
    if c == sep then [] :: r
    else
      match r with
      | [] => [[c]]
      | h :: t => (c :: h) :: t

/-- Split at every character satisfying `p`, keeping empty pieces. -/
def splitOnP (p : Char → Bool) : List Char → List (List Char)
  | [] => [[]]
  | c :: cs =>
    let r := splitOnP p cs
    if p c then [] :: r
    else
      match r with
      | [] => [[c]]
      | h :: t => (c :: h) :: t

/-- Python's no-argument `str.split()`: split on whitespace runs, dropping
empty tokens. -/
def pySplit (l : List Char) : List (List Char) :=
  (splitOnP isWs l).filter (fun t => !t.isEmpty)

/-- Whether `p` is a prefix of `l` (Boolean, executable). -/
def isPrefixL : List Char → List Char → Bool
  | [], _ => true
  | _ :: _, [] => false
  | p :: ps, c :: cs => p == c && isPrefixL ps cs

/-- Python's substring test `pat in l`. -/
def strContains : List Char → List Char → Bool
  | [], pat => isPrefixL pat []
  | c :: cs, pat => isPrefixL pat (c :: cs) || strContains cs pat

/-- Helper for `findSub`: first index (counting from `i`) where `pat` starts,
or -1. -/
def findSubAux (pat : List Char) : List Char → Int → Int
  | [], i => if isPrefixL pat [] then i else -1
  | c :: cs, i => if isPrefixL pat (c :: cs) then i else findSubAux pat cs (i + 1)

/-- Python `str.find(pat)`: index of the first occurrence, or -1. -/
def findSub (l pat : List Char) : Int := findSubAux pat l 0

/-- Python `str.rfind(ch)` for a single character: index of the last
occurrence, or -1. -/
def rfindC : List Char → Char → Int
  | [], _ => -1
  | c :: cs, ch =>
    let r := rfindC cs ch
    if r ≥ 0 then r + 1
    else if c == ch then 0 else -1

/-- Python slice-index normalisation: negative indices count from the end,
then the result is clamped into `[0, n]`. -/
def pyBound (n : Nat) (a : Int) : Nat :=
  if a < 0 then (a + n).toNat else min a.toNat n

/-- Python `l[a:]`. -/
def pySliceFrom (l : List Char) (a : Int) : List Char :=
  l.drop (pyBound l.length a)

/-- Python `l[a:b]`. -/
def pySliceBetween (l : List Char) (a b : Int) : List Char :=
  (l.take (pyBound l.length b)).drop (pyBound l.length a)

/-- Accumulator for `pyInt`: reads decimal digits. -/
def digitsToNatAux : List Char → Nat → Option Nat
  | [], acc => some acc
  | c :: cs, acc =>
    if c.isDigit then digitsToNatAux cs (acc * 10 + (c.toNat - 48)) else none

/-- Python `int(tok)` on a whitespace-free token: optional sign and decimal
digits (protocol command ids are plain ASCII decimal). `none` models the
`ValueError` raised on anything else. -/
def pyInt (l : List Char) : Option Int :=
  match l with
  | [] => none
  | '+' :: ds =>
    match ds with
    | [] => none
    | _ => (digitsToNatAux ds 0).map Int.ofNat
  | '-' :: ds =>
    match ds with
    | [] => none
    | _ => (digitsToNatAux ds 0).map (fun n => -(Int.ofNat n))
  | ds => (digitsToNatAux ds 0).map Int.ofNat

/-- Python dict assignment `d[k] = v` on an association list: overwrite in
place, else append (insertion order preserved, as for `dict`). -/
def dictSet : List (List Char × List Char) → List Char → List Char → List (List Char × List Char)
  | [], k, v => [(k, v)]
  | (k0, v0) :: t, k, v =>
    if k0 = k then (k0, v) :: t else (k0, v0) :: dictSet t k v

/-- Python exceptions that the embedded code can raise. -/
inductive PyErr where
  | indexError
  | valueError
deriving DecidableEq

/-- State of one `PilarCommand` (pilardriver.py): correlation id,
acknowledgement, error text, accumulated key/value payload, the most recent
value (`self.data`), and the one-shot completion flag. -/
structure PilarCommand where
  id : Int
  acknowledged : Bool := false
  error : Option (List Char) := none
  values : List (List Char × List Char) := []
  data : Option (List Char) := none
  completed : Bool := false
deriving DecidableEq

/-- Marker substring `COMMAND OK`. -/
def okMark : List Char := "COMMAND OK".toList

/-- Marker substring `COMMAND ERROR`. -/
def errMark : List Char := "COMMAND ERROR".toList

/-- Marker substring `DATA INLINE`. -/
def diMark : List Char := "DATA INLINE".toList

/-- Marker substring `COMMAND COMPLETE`. -/
def completeMark : List Char := "COMMAND COMPLETE".toList

/-- Marker substring `COMMAND FAILED`. -/
def failedMark : List Char := "COMMAND FAILED".toList

/-- The quote-stripping step of `PilarCommand.parse`: evaluate
`value[0] == '\x22' and value[-1] == '\x22'` (an `IndexError` on an empty
value) and, when both ends are quotes, take `value[1:-1]`. -/
def stripOneQuoteLayer : List Char → Except PyErr (List Char)
  | [] => .error .indexError
  | c :: cs =>
    if c == '"' && cs.getLastD c == '"' then .ok cs.dropLast
    else .ok (c :: cs)

/-- Embedding of `PilarCommand.parse` (pilardriver.py lines 34-62):
split the line, convert the leading token with `int()` (raising on failure),
return unchanged on id mismatch; otherwise record acknowledgement/error,
then either store a `DATA INLINE` key/value (with one quote layer stripped)
or set the completion flag on a terminal marker. -/
def parse (cmd : PilarCommand) (line : List Char) : Except PyErr PilarCommand :=
  match pySplit line with
  | [] => .error .indexError
  | tok :: _ =>
    match pyInt tok with
    | none => .error .valueError
    | some k =>
      if k ≠ cmd.id then .ok cmd
      else
        let c1 :=
          if strContains line okMark || strContains line errMark then
            { cmd with acknowledged := true,
                       error := if strContains line errMark then some line else cmd.error }
          else cmd
        if strContains line diMark then
          let pos := findSub line ['=']
          let key := pySliceBetween line (findSub line diMark + 12) pos
          let value := pySliceFrom line (pos + 1)
          match stripOneQuoteLayer value with
          | .error e => .error e
          | .ok v => .ok { c1 with values := dictSet c1.values key v, data := some v }
        else if strContains line completeMark || strContains line failedMark then
          .ok { c1 with completed := true }
        else .ok c1

/-- The integer value of the line's leading whitespace-delimited token, when
it has one and it parses as an integer. -/
def headTokenInt (line : List Char) : Option Int :=
  match pySplit line with
  | [] => none
  | tok :: _ => pyInt tok

/-- The dispatch loop of `PilarClientProtocol.data_received` (pilardriver.py
lines 156-166): feed the line to every open command in order, propagating
any exception. -/
def parseAll : List PilarCommand → List Char → Except PyErr (List PilarCommand)
  | [], _ => .ok []
  | c :: cs, line =>
    match parse c line with
    | .error e => .error e
    | .ok c' =>
      match parseAll cs line with
      | .error e => .error e
      | .ok cs' => .ok (c' :: cs')

/-- Full non-auth line dispatch of `data_received` (pilardriver.py lines
156-170): offer the line to every open command, then delete the commands
that are completed (deferred removal after the scan). -/
def dispatchLine (cmds : List PilarCommand) (line : List Char) : Except PyErr (List PilarCommand) :=
  match parseAll cmds line with
  | .error e => .error e
  | .ok parsed => .ok (parsed.filter (fun c => !c.completed))

/-- Per-error-kind policy (pilarerror.py `ErrorBehaviour`).  Time spans are
integers (seconds), as in the `ERRORS` table; timestamps below are integer
seconds too. -/
structure ErrorBehaviour where
  ignore : Bool := false
  reset_max : Nat := 10
  reset_timeout : ℤ := 300
  accum_max : Nat := 5
  accum_span : ℤ := 86400
deriving DecidableEq

/-- The names in the static `ERRORS` table of pilarerror.py. -/
def ERRORS_names : List (List Char) :=
  [ "ERR_GPS_PositionLost".toList
  , "ERR_GPS_LeapSecond".toList
  , "ERR_GPS_TooFewSatellites".toList
  , "ERR_Cabinet_TemperatureTooCold".toList
  , "ERR_FilterWheel_RefMismatch".toList
  , "ERR_Elevation_ETELExecError".toList
  , "ERR_Azimuth_ETELExecError".toList
  , "ERR_Oil_TemperatureLow".toList
  , "ERR_Oil_NoExtractionTimeout".toList
  , "ERR_Brake_ClosedFromOther".toList
  , "ERR_Azimuth_ETELError".toList
  , "ERR_Azimuth_ETELWarning".toList
  , "ERR_Elevation_ETELError".toList
  , "ERR_Elevation_ETELWarning".toList ]

/-- A `PilarError` instance (pilarerror.py): its behaviour and its ordered
list of occurrence timestamps (`self._dates`, most recent last). -/
structure PilarErrorInst where
  behaviour : ErrorBehaviour
  dates : List ℤ := []
deriving DecidableEq

/-- `PilarError.occur`: append the current time unless the kind is ignored. -/
def occur (e : PilarErrorInst) (now : ℤ) : PilarErrorInst :=
  if e.behaviour.ignore then e else { e with dates := e.dates ++ [now] }

/-- The accumulation window of `PilarError.fatal` (pilarerror.py line 107):
`[d for d in self._dates if (self._dates[-1] - d).total_seconds() < self.accum_span]`.
On an empty list the comprehension never evaluates its condition. -/
def accumOf (dates : List ℤ) (span : ℤ) : List ℤ :=
  match dates.getLast? with
  | none => []
  | some l => dates.filter (fun d => l - d < span)

/-- Python `(self._dates[-1] - self._dates[-2]).total_seconds()`, evaluated
only under the guard `len(self._dates) >= 2` (the defaults are never
reached there). -/
def lastDiff (dates : List ℤ) : ℤ :=
  dates.getLastD 0 - dates.dropLast.getLastD 0

/-- Embedding of `PilarError.fatal` (pilarerror.py lines 89-121): returns the
verdict and the instance afterwards (the timestamp list is pruned to the
trailing accumulation window only on the non-fatal fall-through). -/
def fatal (e : PilarErrorInst) : Bool × PilarErrorInst :=
  if e.dates.length > e.behaviour.reset_max then (true, e)
  else if 2 ≤ e.dates.length ∧ lastDiff e.dates < e.behaviour.reset_timeout then (true, e)
  else if (accumOf e.dates e.behaviour.accum_span).length > e.behaviour.accum_max then (true, e)
  else (false, { e with dates := accumOf e.dates e.behaviour.accum_span })

/-- `PilarError.create` (pilarerror.py lines 123-144), by error name: an
unknown name is logged and `None` is returned; a known name yields the (new
or existing) instance for that name.  For the list-shape claims the instance
is represented by its name. -/
def createE (known : List (List Char)) (name : List Char) : Option (List Char) :=
  if name ∈ known then some name else none

/-- Embedding of `PilarDriver.list_errors` (pilardriver.py lines 312-362)
applied to the fetched `TELESCOPE.STATUS.LIST` string: split into groups at
commas; in each group take the substring after the last colon, split it at
semicolons; for each entry the name is the piece before the first `|`; empty
names are skipped, and for every other name the result of
`PilarError.create(name)` is appended to the list (also when it is `None`). -/
def list_errors (s : List Char) (known : List (List Char)) : List (Option (List Char)) :=
  ((splitOnC ',' s).map (fun group =>
    let errs := splitOnC ';' (pySliceFrom group (rfindC group ':' + 1))
    (errs.map (fun e =>
      match splitOnC '|' e with
      | [] => []
      | name :: _ => if name.isEmpty then [] else [createE known name])).flatten)).flatten

/-- Embedding of `PilarDriver.clear_errors` (pilardriver.py lines 364-385)
as a function of the global status level and the classifier's global fatal
verdict.  First component: the returned value (`none` models Python's
implicit `None` on the fall-through after clearing).  Second component:
whether the `TELESCOPE.STATUS.CLEAR` command was issued. -/
def clear_errors (level : Int) (fatalCond : Bool) : Option Bool × Bool :=
  if Int.land level 3 ≠ 0 then
    if fatalCond then (some false, false) else (none, true)
  else (some true, false)

/-- Python truthiness of `not x` for `x : Option Bool`: `not None` is
`True`. -/
def pyNotOpt : Option Bool → Bool
  | none => true
  | some b => !b

/-- The assignment `self._has_error = not await self.clear_errors()` in
`PilarDriver._error_thread_func` (pilardriver.py line 238). -/
def errorThreadHasError (level : Int) (fatalCond : Bool) : Bool :=
  pyNotOpt (clear_errors level fatalCond).1

/-- The inner polling loop of `PilarDriver.init` (pilardriver.py lines
429-439), with explicit fuel: while `waited < attempt_timeout`, poll
(`f k` is whether the k-th `TELESCOPE.READY_STATE` read equals 1), then
`waited += 0.5` and sleep.  `none` means the fuel ran out before the loop
exited. -/
def initInner (f : Nat → Bool) (tA : ℚ) : Nat → Nat → ℚ → Option Bool
  | 0, _, _ => none
  | fuel + 1, k, w =>
    if w < tA then
      if f k then some true else initInner f tA fuel (k + 1) (w + 1 / 2)
    else some false

/-- The inner polling loop of `PilarDriver.park` (pilardriver.py lines
462-468), with explicit fuel: while `waited < attempt_timeout`, poll
(`f k` is whether the k-th read equals 0) — the body neither increments
`waited` nor sleeps. -/
def parkInner (f : Nat → Bool) (tA : ℚ) : Nat → Nat → ℚ → Option Bool
  | 0, _, _ => none
  | fuel + 1, k, w =>
    if w < tA then
      if f k then some true else parkInner f tA fuel (k + 1) w
    else some false

/-- An un-awaited Python coroutine object, as produced by calling an `async
def` without `await`; `wouldReturn` is the value the coroutine would produce
if it were awaited. -/
structure PyCoroutine where
  wouldReturn : Bool
deriving DecidableEq

/-- Python truthiness of a coroutine object: `bool()` of any object without
`__bool__`/`__len__` is `True`. -/
def pyTruthy (_ : PyCoroutine) : Bool := true

/-- One `cur_id += 1; if cur_id >= len(self._filters): cur_id = 0` step of
`PilarDriver.change_filter` (pilardriver.py lines 705-707). -/
def wrapInc (n c : Nat) : Nat := if c + 1 ≥ n then 0 else c + 1

/-- The `for i in range(3)` block of `change_filter` (pilardriver.py lines
703-711): advance `cur_id` up to three positions, stopping early at the
target. -/
def for3 (n target c : Nat) : Nat :=
  if wrapInc n c = target then wrapInc n c
  else if wrapInc n (wrapInc n c) = target then wrapInc n (wrapInc n c)
  else wrapInc n (wrapInc n (wrapInc n c))

/-- Remaining forward distance from position `c` to `target` on an
`n`-position wheel. -/
def fDist (n target c : Nat) : Nat := if c ≤ target then target - c else target + n - c

/-- The `while cur_id != filter_id` loop of `change_filter` (pilardriver.py
lines 701-716), with explicit fuel.  Each iteration advances by the `for3`
block, then evaluates `if not self._change_filter_to_id(cur_id, ...)` — the
call is not awaited, so the tested value is the coroutine object `move c'`.
Returns the loop outcome and the list of commanded filter indices. -/
def cfLoop (n target : Nat) (move : Nat → PyCoroutine) : Nat → Nat → Option (Bool × List Nat)
  | 0, _ => none
  | fuel + 1, c =>
    if c = target then some (true, [])
    else
      let c' := for3 n target c
      if !pyTruthy (move c') then some (false, [c'])
      else
        match cfLoop n target move fuel c' with
        | none => none
        | some (b, l) => some (b, c' :: l)

/-- Python `list.index`: first index of `x`, `none` for the `ValueError`. -/
def idxOf : List (List Char) → List Char → Option Nat
  | [], _ => none
  | y :: ys, x => if y = x then some 0 else (idxOf ys x).map (· + 1)

/-- Embedding of `PilarDriver.change_filter` (pilardriver.py lines 688-729):
resolve the name in the cached filter list (`none` models the `ValueError`
of `list.index`); immediate success if already at the target; with
`force_forward` run the stepping loop (fuel `filters.length + 1`, shown
sufficient below), else command the target directly.  The second component
of the result is the list of commanded filter indices. -/
def change_filter (filters : List (List Char)) (cur0 : Nat) (name : List Char)
    (forceForward : Bool) (move : Nat → PyCoroutine) : Option (Bool × List Nat) :=
  match idxOf filters name with
  | none => none
  | some fid =>
    if fid = cur0 then some (true, [])
    else if forceForward then
      match cfLoop filters.length fid move (filters.length + 1) cur0 with
      | none => none
      | some (b, tr) => some (b, tr)
    else
      if pyTruthy (move fid) then some (true, [fid]) else some (false, [fid])

/-- Spec-level description of one forced-forward hop: advance by the minimum
of 3 and the remaining forward distance (wrapping modulo the wheel size),
never passing the target. -/
def hop (n t c : Nat) : Nat := if fDist n t c ≤ 3 then t else (c + 3) % n

/-- Spec-level description of the commanded index sequence of the
forced-forward loop: repeated `hop`s until the target is reached. -/
def specTrace (n t : Nat) : Nat → Nat → List Nat
  | 0, _ => []
  | fuel + 1, c => if c = t then [] else hop n t c :: specTrace n t fuel (hop n t c)

/-- A six-position filter wheel. -/
def filters6 : List (List Char) :=
  ["f0", "f1", "f2", "f3", "f4", "f5"].map String.toList

/-- A move oracle whose awaited result would be `True`. -/
def coroTrue : Nat → PyCoroutine := fun _ => ⟨true⟩

/-- A move oracle whose awaited result would be `False` (the position
readback never matches). -/
def coroFalse : Nat → PyCoroutine := fun _ => ⟨false⟩

/-- The status string of the `listErrors()` example. -/
def c2input : List Char := "A|1:comp|2;err1|d1|1|comp,B|0".toList

/-- A fresh command with id 1. -/
def cmd1 : PilarCommand := { id := 1 }

/-- A `DATA INLINE` line whose value is `"abc"`. -/
def c5goodLine : List Char := "1 DATA INLINE KEY=\"abc\"".toList

/-- A `DATA INLINE` line whose value is `"a\x22b"` with an interior quote. -/
def c5badLine : List Char := "1 DATA INLINE KEY=\"a\"b\"".toList

/-- An instance with the default behaviour and 11 recorded occurrences, the
first of which lies far outside the accumulation span of the most recent. -/
def eC3 : PilarErrorInst :=
  { behaviour := {},
    dates := [0, 100000, 100400, 100800, 101200, 101600, 102000, 102400,
              102800, 103200, 103600] }

/-- An instance with the default behaviour and 3 occurrences spaced 400 s
apart (no rule fires). -/
def eC3w : PilarErrorInst := { behaviour := {}, dates := [0, 400, 800] }

/-- An instance with the default behaviour (`reset_max = 10`,
`reset_timeout = 300`, `accum_max = 5`, `accum_span = 86400`) and 6
occurrences spaced 301 s apart. -/
def eC4 : PilarErrorInst :=
  { behaviour := {}, dates := [0, 301, 602, 903, 1204, 1505] }

/-- Default behaviour, 5 occurrences spaced 301 s apart. -/
def eC4a : PilarErrorInst :=
  { behaviour := {}, dates := [0, 301, 602, 903, 1204] }

/-- Default behaviour, 11 occurrences. -/
def eC4b : PilarErrorInst :=
  { behaviour := {},
    dates := [0, 301, 602, 903, 1204, 1505, 1806, 2107, 2408, 2709, 3010] }

/-- Default behaviour, two occurrences 100 s apart (inside the 300 s reset
timeout). -/
def eC4c : PilarErrorInst := { behaviour := {}, dates := [0, 100] }

/-- Open command with id 1 carrying some state. -/
def cmdW1 : PilarCommand := { id := 1, acknowledged := true }

/-- Open command with id 2. -/
def cmdW2 : PilarCommand := { id := 2 }

/-- `cmdW2` after its terminal line. -/
def cmdW2done : PilarCommand := { id := 2, completed := true }

/-- The line `2 COMMAND COMPLETE`. -/
def lineW : List Char := "2 COMMAND COMPLETE".toList

/-- C1: the claim that `change_filter` with `forceForward` moving from index
4 to index 1 on a 6-position wheel commands 5, then 0, then 1 is false: the
`for i in range(3)` block advances `cur_id` up to three positions before the
single move command, so the wheel is commanded to index 1 directly and the
commanded sequence is `[1]`, not `[5, 0, 1]`. -/
theorem c1_counterexample :
    change_filter filters6 4 ("f1".toList) true coroTrue = some (true, [1]) ∧
    ([1] : List Nat) ≠ [5, 0, 1] := by
  constructor
  · rfl
  · decide

/-- C2: the claim that `list_errors` on `A|1:comp|2;err1|d1|1|comp,B|0`
returns exactly one element is false: the names `comp`, `err1` and `B` are
all absent from the `ERRORS` table, `PilarError.create` returns `None` for
each, and `list_errors` appends each result anyway, so the returned list has
three elements (all `None`), not one. -/
theorem c2_counterexample :
    list_errors c2input ERRORS_names = [none, none, none] ∧
    (list_errors c2input ERRORS_names).length ≠ 1 := by
  constructor
  · rfl
  · intro h
    rw [show list_errors c2input ERRORS_names = [none, none, none] from rfl] at h
    simp at h

/-- C2 amended: on that input `list_errors` returns the three `create`
results for the names `comp`, `err1` and `B` (in that order), every one of
which is `None` because none of the three names is a known error name;
unknown names are logged but their `None` is still appended to the list. -/
theorem c2_amended :
    list_errors c2input ERRORS_names =
      [createE ERRORS_names ("comp".toList),
       createE ERRORS_names ("err1".toList),
       createE ERRORS_names ("B".toList)] ∧
    createE ERRORS_names ("comp".toList) = none ∧
    createE ERRORS_names ("err1".toList) = none ∧
    createE ERRORS_names ("B".toList) = none := by
  refine ⟨rfl, ?_, ?_, ?_⟩ <;> decide

/-- C5: the claim that the value `"a\x22b"` (quote inside, quotes at both
ends) is stored unchanged is false: `parse` tests only the first and the
last character, both are quotes, so exactly one layer is stripped and the
stored value is `a"b`. -/
theorem c5_counterexample :
    (parse cmd1 c5badLine).toOption.map (fun c => c.data) =
      some (some ("a\"b".toList)) ∧
    ("a\"b".toList) ≠ ("\"a\"b\"".toList) := by
  constructor
  · rfl
  · decide

/-- C3: the claim that after any `fatal()` call the timestamp list contains
only entries within `accum_span` of the most recent one is false: when
`fatal()` returns true through an early branch (here: 11 recorded
occurrences exceed `reset_max = 10`) the list is left unpruned, and `eC3`
retains the entry 0 although the most recent entry is 103600 and
`accum_span` is 86400. -/
theorem c3_counterexample :
    (fatal eC3).1 = true ∧
    (fatal eC3).2.dates = eC3.dates ∧
    (fatal eC3).2.dates.getLast? = some 103600 ∧
    (0 : ℤ) ∈ (fatal eC3).2.dates ∧
    ¬((103600 : ℤ) - 0 < eC3.behaviour.accum_span) := by
  refine ⟨?_, ?_, ?_, ?_, ?_⟩ <;> decide

/-- C4: the claim that an instance with `reset_max = 10` stays non-fatal
through the 10th occurrence whenever occurrences are spaced more than
`reset_timeout` apart and all lie within `accum_span` of the most recent is
false: with the default behaviour (`accum_max = 5`) six such occurrences
already make `fatal()` true through the accumulation rule. -/
theorem c4_counterexample :
    eC4.behaviour.reset_max = 10 ∧
    eC4.dates.length ≤ 10 ∧
    List.Chain' (fun a b : ℤ => a + eC4.behaviour.reset_timeout < b) eC4.dates ∧
    (∀ d ∈ eC4.dates, ∀ l : ℤ, eC4.dates.getLast? = some l →
      l - d < eC4.behaviour.accum_span) ∧
    (fatal eC4).1 = true := by
  refine ⟨by decide, by decide, ?_, by decide, by decide⟩
  rw [show eC4.dates = [0, 301, 602, 903, 1204, 1505] from rfl]
  simp only [List.chain'_cons, List.chain'_singleton, and_true]
  refine ⟨?_, ?_, ?_, ?_, ?_⟩ <;> decide

/-- `init`'s inner loop exits once the fuel covers the polls the timeout
allows: each iteration adds 1/2 to `waited`, so with all polls failing the
loop returns `false` within any fuel exceeding `2 * (tA - w) + 1`. -/
lemma initInner_exhaust (f : Nat → Bool) (hf : ∀ j, f j = false) (tA : ℚ) :
    ∀ fuel : Nat, 1 ≤ fuel → ∀ (k : Nat) (w : ℚ), 2 * (tA - w) + 1 < (fuel : ℚ) →
      initInner f tA fuel k w = some false := by
  intro fuel
  induction fuel with
  | zero => intro h; omega
  | succ m ih =>
    intro _ k w hw
    show initInner f tA (m + 1) k w = some false
    simp only [initInner, hf k]
    by_cases hlt : w < tA
    · rw [if_pos hlt]
      simp only [Bool.false_eq_true, if_false]
      have hm : 1 ≤ m := by
        by_contra hm0
        have : m = 0 := by omega
        subst this
        push_cast at hw
        linarith
      refine ih hm (k + 1) (w + 1 / 2) ?_
      push_cast at hw ⊢
      linarith
    · rw [if_neg hlt]

/-- C6: `park` (pilardriver.py lines 445-472) does not terminate as claimed:
its inner poll loop never increments `waited` and never sleeps, so with the
ready-state never reading 0 the loop guard `waited < attempt_timeout` holds
forever (the fuel-indexed embedding never exits, for any fuel), whereas
`init`'s inner loop, which does increment `waited` by 0.5, exits with
`false` once the fuel covers the 60 polls the 30 s timeout allows. -/
theorem c6_park_inner_divergence :
    (∀ fuel k, parkInner (fun _ => false) 30 fuel k 0 = none) ∧
    initInner (fun _ => false) 30 62 0 0 = some false := by
  constructor
  · intro fuel
    induction fuel with
    | zero => intro k; rfl
    | succ m ih =>
      intro k
      show parkInner (fun _ => false) 30 (m + 1) k 0 = none
      simp only [parkInner]
      rw [if_pos (by norm_num : (0 : ℚ) < 30)]
      simpa using ih (k + 1)
  · exact initInner_exhaust _ (fun _ => rfl) 30 62 (by norm_num) 0 0 (by norm_num)

/-- C9: whenever the global status level has a severe bit set and the
classifier's global fatal predicate is false, `clear_errors` issues the
CLEAR command and falls off the end of the function, returning `None`
rather than a boolean; `not None` is `True`, so the maintenance loop
records `has_error = true` although clearing was performed. -/
theorem c9_clear_none_has_error (level : Int) (fatalCond : Bool)
    (hsev : Int.land level 3 ≠ 0) (hfatal : fatalCond = false) :
    clear_errors level fatalCond = (none, true) ∧
    errorThreadHasError level fatalCond = true := by
  subst hfatal
  have h1 : clear_errors level false = (none, true) := by
    unfold clear_errors
    simp [hsev]
  exact ⟨h1, by unfold errorThreadHasError; rw [h1]; rfl⟩

/-- Witness for C9 at the concrete level 1 (bit 0 set). -/
theorem c9_witness :
    Int.land 1 3 ≠ 0 ∧
    (clear_errors 1 false = (none, true) ∧ errorThreadHasError 1 false = true) :=
  ⟨by decide, c9_clear_none_has_error 1 false (by decide) rfl⟩

/-- A list whose `getLast?` is `some x` contains `x`. -/
lemma mem_of_getLast?_eq {α : Type} : ∀ {l : List α} {x : α},
    l.getLast? = some x → x ∈ l := by
  intro l
  induction l with
  | nil => intro x hx; simp at hx
  | cons a t ih =>
    intro x hx
    cases t with
    | nil =>
      rw [List.getLast?_singleton] at hx
      simp [Option.some_inj.mp hx]
    | cons b t' =>
      rw [List.getLast?_cons_cons] at hx
      exact List.mem_cons_of_mem _ (ih hx)

/-- In a `≤`-sorted list every member is at most the last element. -/
lemma le_getLast_of_pairwise : ∀ {l : List ℤ}, l.Pairwise (· ≤ ·) →
    ∀ {d L : ℤ}, d ∈ l → l.getLast? = some L → d ≤ L := by
  intro l
  induction l with
  | nil => intro _ d L hd; simp at hd
  | cons a t ih =>
    intro hp d L hd hL
    obtain ⟨ha, hp'⟩ := List.pairwise_cons.mp hp
    cases t with
    | nil =>
      rw [List.getLast?_singleton] at hL
      rcases List.mem_singleton.mp hd with rfl
      rw [Option.some_inj.mp hL]
    | cons b t' =>
      rw [List.getLast?_cons_cons] at hL
      rcases List.mem_cons.mp hd with rfl | hd'
      · exact ha L (mem_of_getLast?_eq hL)
      · exact ih hp' hd' hL

/-- Filtering keeps the last element as last when it satisfies the
predicate. -/
lemma filter_getLast?_of_pos {α : Type} (p : α → Bool) :
    ∀ {l : List α} {x : α}, l.getLast? = some x → p x = true →
      (l.filter p).getLast? = some x := by
  intro l
  induction l with
  | nil => intro x hx; simp at hx
  | cons a t ih =>
    intro x hx hp
    cases t with
    | nil =>
      rw [List.getLast?_singleton] at hx
      rcases Option.some_inj.mp hx with rfl
      simp [List.filter, hp]
    | cons b t' =>
      rw [List.getLast?_cons_cons] at hx
      have ihx := ih hx hp
      rw [List.filter_cons]
      by_cases hpa : p a = true
      · rw [if_pos hpa]
        cases hf : (b :: t').filter p with
        | nil => rw [hf] at ihx; simp at ihx
        | cons y ys =>
          rw [hf] at ihx
          rw [List.getLast?_cons_cons]
          exact ihx
      · rw [if_neg hpa]
        exact ihx

/-- When `fatal` returns false, the stored timestamp list afterwards is the
accumulation window. -/
lemma fatal_false_dates {e : PilarErrorInst} (h : (fatal e).1 = false) :
    (fatal e).2.dates = accumOf e.dates e.behaviour.accum_span := by
  unfold fatal at h ⊢
  by_cases h1 : e.dates.length > e.behaviour.reset_max
  · rw [if_pos h1] at h; simp at h
  · rw [if_neg h1] at h ⊢
    by_cases h2 : 2 ≤ e.dates.length ∧ lastDiff e.dates < e.behaviour.reset_timeout
    · rw [if_pos h2] at h; simp at h
    · rw [if_neg h2] at h ⊢
      by_cases h3 : (accumOf e.dates e.behaviour.accum_span).length > e.behaviour.accum_max
      · rw [if_pos h3] at h; simp at h
      · rw [if_neg h3]

/-- C3 amended: for an instance whose timestamp list is chronologically
ordered (as `occur()` produces it), after any `fatal()` call that RETURNS
FALSE the stored list contains only entries within `accum_span` seconds of
its most recent entry; a call that returns true leaves the list unpruned
(see the counterexample). -/
theorem c3_amended (e : PilarErrorInst) (hsort : e.dates.Pairwise (· ≤ ·))
    (hfalse : (fatal e).1 = false) :
    ∀ d ∈ (fatal e).2.dates, ∀ l, (fatal e).2.dates.getLast? = some l →
      l - d < e.behaviour.accum_span := by
  rw [fatal_false_dates hfalse]
  intro d hdmem l hlast
  unfold accumOf at hdmem hlast
  cases hL : e.dates.getLast? with
  | none => rw [hL] at hdmem; simp at hdmem
  | some L =>
    rw [hL] at hdmem hlast
    obtain ⟨hdd, hdp⟩ := List.mem_filter.mp hdmem
    have hdlt : L - d < e.behaviour.accum_span := by
      simpa using hdp
    have hLpos : decide (L - L < e.behaviour.accum_span) = true := by
      have hdle : d ≤ L := le_getLast_of_pairwise hsort hdd hL
      simp only [decide_eq_true_eq]
      omega
    have hfl := filter_getLast?_of_pos
      (fun d => decide (L - d < e.behaviour.accum_span)) hL hLpos
    rw [hfl] at hlast
    rcases Option.some_inj.mp hlast with rfl
    exact hdlt

/-- Witness for C3 amended: three occurrences spaced 400 s apart under the
default behaviour; `fatal` returns false and the kept entries all lie within
the accumulation span of the most recent one. -/
theorem c3_amended_witness :
    eC3w.dates.Pairwise (· ≤ ·) ∧ (fatal eC3w).1 = false ∧
    (∀ d ∈ (fatal eC3w).2.dates, ∀ l, (fatal eC3w).2.dates.getLast? = some l →
      l - d < eC3w.behaviour.accum_span) :=
  ⟨by decide, by decide, c3_amended eC3w (by decide) (by decide)⟩

/-- C4 amended: (1) `fatal()` is false whenever the occurrence count is at
most `reset_max` AND at most `accum_max`, the two most recent occurrences
are at least `reset_timeout` apart, and every occurrence lies within
`accum_span` of the most recent (the claim's premise must additionally
bound the count by `accum_max`: with the default `accum_max = 5` the
accumulation rule fires before the 10th occurrence, see the
counterexample); (2) `fatal()` is true as soon as the count exceeds
`reset_max` (the 11th occurrence for `reset_max = 10`); (3) whenever the
two most recent occurrences are less than `reset_timeout` apart, `fatal()`
is true regardless of the total count. -/
theorem c4_amended :
    (∀ e : PilarErrorInst,
        e.dates.length ≤ e.behaviour.reset_max →
        e.dates.length ≤ e.behaviour.accum_max →
        (2 ≤ e.dates.length → e.behaviour.reset_timeout ≤ lastDiff e.dates) →
        (∀ d ∈ e.dates, ∀ l, e.dates.getLast? = some l →
          l - d < e.behaviour.accum_span) →
        (fatal e).1 = false) ∧
    (∀ e : PilarErrorInst, e.behaviour.reset_max < e.dates.length →
        (fatal e).1 = true) ∧
    (∀ e : PilarErrorInst, 2 ≤ e.dates.length →
        lastDiff e.dates < e.behaviour.reset_timeout → (fatal e).1 = true) := by
  refine ⟨?_, ?_, ?_⟩
  · intro e h1 h2 h3 h4
    have haccum : accumOf e.dates e.behaviour.accum_span = e.dates := by
      unfold accumOf
      cases hL : e.dates.getLast? with
      | none =>
        have hnil : e.dates = [] := List.getLast?_eq_none_iff.mp hL
        rw [hnil]
      | some L =>
        apply List.filter_eq_self.mpr
        intro a ha
        simp only [decide_eq_true_eq]
        exact h4 a ha L hL
    unfold fatal
    rw [if_neg (by omega), if_neg ?hg2, if_neg ?hg3]
    case hg2 =>
      rintro ⟨hlen, hdiff⟩
      exact absurd hdiff (not_lt.mpr (h3 hlen))
    case hg3 =>
      rw [haccum]
      omega
  · intro e h
    unfold fatal
    rw [if_pos h]
  · intro e h2 hd
    unfold fatal
    by_cases h1 : e.dates.length > e.behaviour.reset_max
    · rw [if_pos h1]
    · rw [if_neg h1, if_pos ⟨h2, hd⟩]

/-- Witness for C4 amended at three concrete instances: 5 occurrences
spaced 301 s apart are not fatal; 11 occurrences are fatal; two occurrences
100 s apart are fatal. -/
theorem c4_amended_witness :
    (eC4a.dates.length ≤ eC4a.behaviour.reset_max ∧ (fatal eC4a).1 = false) ∧
    (eC4b.behaviour.reset_max < eC4b.dates.length ∧ (fatal eC4b).1 = true) ∧
    (2 ≤ eC4c.dates.length ∧ lastDiff eC4c.dates < eC4c.behaviour.reset_timeout ∧
      (fatal eC4c).1 = true) :=
  ⟨⟨by decide,
    c4_amended.1 eC4a (by decide) (by decide) (fun _ => by decide) (by decide)⟩,
   ⟨by decide, c4_amended.2.1 eC4b (by decide)⟩,
   ⟨by decide, by decide, c4_amended.2.2 eC4c (by decide) (by decide)⟩⟩

/-- C5 amended: the value `"abc"` is stored as `abc` and the value
`"a\x22b"` is stored as `a"b` — stripping is decided solely by the first
and last characters (one layer removed whenever both are double quotes,
regardless of interior quotes), not by whether the ends form a single
bounding pair. -/
theorem c5_amended :
    (parse cmd1 c5goodLine).toOption.map (fun c => c.data) =
      some (some ("abc".toList)) ∧
    (parse cmd1 c5badLine).toOption.map (fun c => c.data) =
      some (some ("a\"b".toList)) ∧
    (∀ v : List Char, v.head? = some '"' → v.getLast? = some '"' →
      stripOneQuoteLayer v = .ok (v.dropLast.drop 1)) ∧
    (∀ v : List Char, v ≠ [] → ¬(v.head? = some '"' ∧ v.getLast? = some '"') →
      stripOneQuoteLayer v = .ok v) := by
  refine ⟨rfl, rfl, ?_, ?_⟩
  · intro v h1 h2
    cases v with
    | nil => simp at h1
    | cons c cs =>
      have hc : c = '"' := by simpa using h1
      subst hc
      have hlast : cs.getLast?.getD '"' = '"' := by
        rw [List.getLast?_cons] at h2
        exact Option.some_inj.mp h2
      simp only [stripOneQuoteLayer]
      rw [if_pos (by simp [List.getLastD_eq_getLast?, hlast])]
      cases cs with
      | nil => rfl
      | cons b t => simp [List.dropLast_cons₂]
  · intro v hne hnot
    cases v with
    | nil => exact absurd rfl hne
    | cons c cs =>
      simp only [stripOneQuoteLayer]
      rw [if_neg]
      intro hcond
      rw [Bool.and_eq_true] at hcond
      obtain ⟨hc, hl⟩ := hcond
      apply hnot
      constructor
      · simp [beq_iff_eq.mp hc]
      · rw [List.getLast?_cons, Option.some_inj]
        have hgl : cs.getLastD c = '"' := beq_iff_eq.mp hl
        rw [List.getLastD_eq_getLast?] at hgl
        exact hgl

/-- Witness for C5 amended parts with hypotheses: `"ab"` (quotes at both
ends) is stripped, `xy` (no quotes) is stored unchanged. -/
theorem c5_amended_witness :
    (("\"ab\"".toList).head? = some '"' ∧ ("\"ab\"".toList).getLast? = some '"' ∧
      stripOneQuoteLayer ("\"ab\"".toList) =
        .ok (("\"ab\"".toList).dropLast.drop 1)) ∧
    (("xy".toList) ≠ [] ∧
      ¬(("xy".toList).head? = some '"' ∧ ("xy".toList).getLast? = some '"') ∧
      stripOneQuoteLayer ("xy".toList) = .ok ("xy".toList)) :=
  ⟨⟨by decide, by decide, c5_amended.2.2.1 _ (by decide) (by decide)⟩,
   ⟨by decide, by decide, c5_amended.2.2.2 _ (by decide) (by decide)⟩⟩

/-- A line whose leading token is the integer `k` leaves every command with
a different id untouched: `parse` returns on the id comparison. -/
lemma parse_id_mismatch {cmd : PilarCommand} {line : List Char} {k : Int}
    (htok : headTokenInt line = some k) (hid : cmd.id ≠ k) :
    parse cmd line = .ok cmd := by
  unfold headTokenInt at htok
  unfold parse
  cases hs : pySplit line with
  | nil => simp [hs] at htok
  | cons tok rest =>
    simp only [hs] at htok ⊢
    cases hp : pyInt tok with
    | none => rw [hp] at htok; simp at htok
    | some q =>
      rw [hp] at htok
      simp only [hp]
      have hq : q = k := by simpa using htok
      subst hq
      rw [if_pos (Ne.symm hid)]

/-- When no open command's id matches the line's leading integer token, the
whole parse pass returns the command list unchanged. -/
lemma parseAll_mismatch_all {cmds : List PilarCommand} {line : List Char} {k : Int}
    (htok : headTokenInt line = some k) (h : ∀ c ∈ cmds, c.id ≠ k) :
    parseAll cmds line = .ok cmds := by
  induction cmds with
  | nil => rfl
  | cons c cs ih =>
    have hc := parse_id_mismatch htok (h c (List.mem_cons_self c cs))
    simp only [parseAll, hc]
    rw [ih (fun x hx => h x (List.mem_cons_of_mem _ hx))]

/-- A successful parse pass preserves the number of open commands. -/
lemma parseAll_length : ∀ {cmds parsed : List PilarCommand} {line : List Char},
    parseAll cmds line = .ok parsed → parsed.length = cmds.length := by
  intro cmds
  induction cmds with
  | nil =>
    intro parsed line h
    simp only [parseAll] at h
    injection h with h
    rw [← h]
  | cons c cs ih =>
    intro parsed line h
    simp only [parseAll] at h
    cases hc : parse c line with
    | error e => rw [hc] at h; simp at h
    | ok c' =>
      rw [hc] at h
      cases hcs : parseAll cs line with
      | error e => rw [hcs] at h; simp at h
      | ok cs' =>
        rw [hcs] at h
        injection h with h
        rw [← h]
        simp [ih hcs]

/-- In a successful parse pass, every position whose command id differs from
the line's leading integer token holds the original command unchanged. -/
lemma parseAll_get_mismatch {line : List Char} {k : Int}
    (htok : headTokenInt line = some k) :
    ∀ {cmds parsed : List PilarCommand}, parseAll cmds line = .ok parsed →
      ∀ (i : Nat) (h1 : i < cmds.length) (h2 : i < parsed.length),
        (cmds.get ⟨i, h1⟩).id ≠ k → parsed.get ⟨i, h2⟩ = cmds.get ⟨i, h1⟩ := by
  intro cmds
  induction cmds with
  | nil => intro parsed _ i h1; simp at h1
  | cons c cs ih =>
    intro parsed h i h1 h2 hid
    simp only [parseAll] at h
    cases hc : parse c line with
    | error e => rw [hc] at h; simp at h
    | ok c' =>
      rw [hc] at h
      cases hcs : parseAll cs line with
      | error e => rw [hcs] at h; simp at h
      | ok cs' =>
        rw [hcs] at h
        injection h with h
        subst h
        cases i with
        | zero =>
          simp only [List.get] at hid ⊢
          have hmm := parse_id_mismatch htok hid
          rw [hmm] at hc
          injection hc with hcc
          exact hcc.symm
        | succ j =>
          simp only [List.get] at hid ⊢
          exact ih hcs j (by simpa using h1) (by simpa using h2) hid

/-- C7: the claim that a malformed non-auth line is dropped silently and is
never an error condition is false: with the open command of id 1, the line
`hello` (leading token not an integer) raises a `ValueError` inside
`int(s[0])` during `parse`, so dispatch ends in an error, not a silent
drop. -/
theorem c7_counterexample :
    dispatchLine [cmd1] ("hello".toList) = .error PyErr.valueError := rfl

/-- C7 amended: a line whose leading token is an integer matching no open
command's id is dropped silently — every open (non-terminal) command and
the open set are unchanged — and an empty non-auth line or one whose
leading token is not an integer is dropped silently only when NO command is
open; when at least one command is open such a line raises an exception
inside `parse` (an `IndexError` on the empty token list or a `ValueError`
from `int()`), so processing it is an error condition. -/
theorem c7_amended :
    (∀ (cmds : List PilarCommand) (line : List Char) (k : Int),
        headTokenInt line = some k →
        (∀ c ∈ cmds, c.id ≠ k ∧ c.completed = false) →
        dispatchLine cmds line = .ok cmds) ∧
    (∀ (c : PilarCommand) (cs : List PilarCommand) (line : List Char),
        headTokenInt line = none →
        ∃ e, dispatchLine (c :: cs) line = .error e) ∧
    (∀ line : List Char, dispatchLine [] line = .ok []) := by
  refine ⟨?_, ?_, ?_⟩
  · intro cmds line k htok hall
    unfold dispatchLine
    rw [parseAll_mismatch_all htok (fun c hc => (hall c hc).1)]
    have hfil : cmds.filter (fun c => !c.completed) = cmds :=
      List.filter_eq_self.mpr (fun c hc => by rw [(hall c hc).2]; rfl)
    simp [hfil]
  · intro c cs line htok
    have herr : ∃ e, parse c line = .error e := by
      unfold headTokenInt at htok
      unfold parse
      cases hs : pySplit line with
      | nil => exact ⟨.indexError, by simp only [hs]⟩
      | cons tok rest =>
        simp only [hs] at htok
        exact ⟨.valueError, by simp only [hs, htok]⟩
    obtain ⟨e, he⟩ := herr
    refine ⟨e, ?_⟩
    unfold dispatchLine
    simp only [parseAll, he]
  · intro line
    rfl

/-- Witness for C7 amended: a line with unmatched id 2 passes over the open
command with id 1; the line `hello` raises with a command open; any line is
dropped with no command open. -/
theorem c7_amended_witness :
    (headTokenInt lineW = some 2 ∧ dispatchLine [cmdW1] lineW = .ok [cmdW1]) ∧
    (headTokenInt ("hello".toList) = none ∧
      ∃ e, dispatchLine [cmdW1] ("hello".toList) = .error e) ∧
    dispatchLine [] lineW = .ok [] :=
  ⟨⟨by decide, c7_amended.1 [cmdW1] lineW 2 (by decide)
      (by intro c hc; rw [List.mem_singleton.mp hc]; exact ⟨by decide, rfl⟩)⟩,
   ⟨by decide, c7_amended.2.1 cmdW1 [] ("hello".toList) (by decide)⟩,
   c7_amended.2.2 lineW⟩

/-- C8: dispatching a response line whose leading token is the integer `N`
mutates only the command whose id equals `N`: every command with a
different id comes out of its parse step unchanged, the parse pass
preserves positions and length, and the open set afterwards is exactly the
parsed commands with the terminal ones filtered out — removal happens only
after the whole set has been offered the line. -/
theorem c8_frame (cmds : List PilarCommand) (line : List Char) (k : Int)
    (htok : headTokenInt line = some k) :
    (∀ c ∈ cmds, c.id ≠ k → parse c line = .ok c) ∧
    (∀ parsed, parseAll cmds line = .ok parsed →
      dispatchLine cmds line = .ok (parsed.filter (fun c => !c.completed)) ∧
      parsed.length = cmds.length ∧
      ∀ (i : Nat) (h1 : i < cmds.length) (h2 : i < parsed.length),
        (cmds.get ⟨i, h1⟩).id ≠ k → parsed.get ⟨i, h2⟩ = cmds.get ⟨i, h1⟩) := by
  constructor
  · intro c _ hid
    exact parse_id_mismatch htok hid
  · intro parsed hp
    refine ⟨?_, parseAll_length hp, parseAll_get_mismatch htok hp⟩
    unfold dispatchLine
    rw [hp]

/-- Witness for C8 at two open commands and the line `2 COMMAND COMPLETE`:
the command with id 1 is untouched and only the completed id-2 command is
removed, after the full pass. -/
theorem c8_frame_witness :
    headTokenInt lineW = some 2 ∧
    parse cmdW1 lineW = .ok cmdW1 ∧
    dispatchLine [cmdW1, cmdW2] lineW = .ok [cmdW1] :=
  ⟨by decide,
   (c8_frame [cmdW1, cmdW2] lineW 2 (by decide)).1 cmdW1 (by decide) (by decide),
   ((c8_frame [cmdW1, cmdW2] lineW 2 (by decide)).2 [cmdW1, cmdW2done]
      (by rfl)).1⟩

/-- `wrapInc` stays below the wheel size. -/
lemma wrapInc_lt {n : Nat} (hn : 0 < n) (c : Nat) : wrapInc n c < n := by
  unfold wrapInc
  split <;> omega

/-- For a valid position, `wrapInc` is addition of 1 modulo the wheel
size. -/
lemma wrapInc_eq_mod {n c : Nat} (hc : c < n) : wrapInc n c = (c + 1) % n := by
  unfold wrapInc
  by_cases h : c + 1 ≥ n
  · rw [if_pos h]
    have hcn : c + 1 = n := by omega
    rw [hcn, Nat.mod_self]
  · rw [if_neg h, Nat.mod_eq_of_lt (by omega)]

/-- The forward distance from the target to itself is zero. -/
lemma fDist_self (n t : Nat) : fDist n t t = 0 := by simp [fDist]

/-- Away from the target the forward distance is positive. -/
lemma fDist_pos_ne {n t c : Nat} (hc : c < n) (ht : t < n) (hne : c ≠ t) :
    0 < fDist n t c := by
  unfold fDist
  split <;> omega

/-- Zero forward distance means the position is the target. -/
lemma fDist_eq_zero {n t c : Nat} (hc : c < n) (ht : t < n)
    (h : fDist n t c = 0) : c = t := by
  unfold fDist at h
  split at h <;> omega

/-- The forward distance is always below the wheel size. -/
lemma fDist_lt {n t c : Nat} (ht : t < n) (hc : c < n) : fDist n t c < n := by
  unfold fDist
  split <;> omega

/-- One wrap-increment reduces the forward distance by one. -/
lemma fDist_wrapInc {n t c : Nat} (hc : c < n) (ht : t < n) (hne : c ≠ t) :
    fDist n t (wrapInc n c) = fDist n t c - 1 := by
  unfold fDist wrapInc
  split_ifs <;> omega

/-- The `for i in range(3)` block reduces the forward distance by three
(truncated at zero: it stops exactly at the target) and stays on the
wheel. -/
lemma for3_dist {n t c : Nat} (hc : c < n) (ht : t < n) (hne : c ≠ t) :
    fDist n t (for3 n t c) = fDist n t c - 3 ∧ for3 n t c < n := by
  have hn : 0 < n := by omega
  have hdpos := fDist_pos_ne hc ht hne
  have hd1 := fDist_wrapInc hc ht hne
  have hc1 : wrapInc n c < n := wrapInc_lt hn c
  unfold for3
  by_cases h1 : wrapInc n c = t
  · rw [if_pos h1]
    have h0 : fDist n t (wrapInc n c) = 0 := by rw [h1]; exact fDist_self n t
    exact ⟨by omega, hc1⟩
  · rw [if_neg h1]
    have hd2 := fDist_wrapInc hc1 ht h1
    have hc2 : wrapInc n (wrapInc n c) < n := wrapInc_lt hn _
    have hdpos1 := fDist_pos_ne hc1 ht h1
    by_cases h2 : wrapInc n (wrapInc n c) = t
    · rw [if_pos h2]
      have h0 : fDist n t (wrapInc n (wrapInc n c)) = 0 := by
        rw [h2]; exact fDist_self n t
      exact ⟨by omega, hc2⟩
    · rw [if_neg h2]
      have hd3 := fDist_wrapInc hc2 ht h2
      have hc3 : wrapInc n (wrapInc n (wrapInc n c)) < n := wrapInc_lt hn _
      have hdpos2 := fDist_pos_ne hc2 ht h2
      exact ⟨by omega, hc3⟩

/-- Three wrap-increments amount to adding three modulo the wheel size. -/
lemma wrapInc3_eq {n c : Nat} (hc : c < n) :
    wrapInc n (wrapInc n (wrapInc n c)) = (c + 3) % n := by
  have hn : 0 < n := by omega
  rw [wrapInc_eq_mod hc, wrapInc_eq_mod (Nat.mod_lt _ hn), Nat.mod_add_mod,
      wrapInc_eq_mod (Nat.mod_lt _ hn), Nat.mod_add_mod]

/-- The `for i in range(3)` block equals the spec-level `hop`: jump to the
target when at most three positions away, else advance exactly three. -/
lemma for3_eq_hop {n t c : Nat} (hc : c < n) (ht : t < n) (hne : c ≠ t) :
    for3 n t c = hop n t c := by
  have hn : 0 < n := by omega
  have hdpos := fDist_pos_ne hc ht hne
  have hd1 := fDist_wrapInc hc ht hne
  unfold hop
  by_cases hd3 : fDist n t c ≤ 3
  · rw [if_pos hd3]
    obtain ⟨ha, hb⟩ := for3_dist hc ht hne
    exact fDist_eq_zero hb ht (by omega)
  · rw [if_neg hd3]
    have hc1 : wrapInc n c < n := wrapInc_lt hn c
    have hne1 : wrapInc n c ≠ t := by
      intro h
      rw [h, fDist_self] at hd1
      omega
    have hd2 := fDist_wrapInc hc1 ht hne1
    have hne2 : wrapInc n (wrapInc n c) ≠ t := by
      intro h
      rw [h, fDist_self] at hd2
      omega
    unfold for3
    rw [if_neg hne1, if_neg hne2]
    exact wrapInc3_eq hc

/-- With enough fuel (one more than the forward distance) the
forced-forward loop of `change_filter` succeeds for ANY move oracle — the
un-awaited coroutine is always truthy, so the failure branch is never
taken — and its commanded sequence is the spec-level `hop` trace. -/
lemma cfLoop_spec (n t : Nat) (move : Nat → PyCoroutine) (ht : t < n) :
    ∀ (fuel c : Nat), c < n → fDist n t c < fuel →
      cfLoop n t move fuel c = some (true, specTrace n t fuel c) := by
  intro fuel
  induction fuel with
  | zero => intro c _ h; omega
  | succ m ih =>
    intro c hc hflt
    by_cases hct : c = t
    · subst hct
      simp [cfLoop, specTrace]
    · obtain ⟨hf1, hf2⟩ := for3_dist hc ht hct
      have hhop := for3_eq_hop hc ht hct
      have hdpos := fDist_pos_ne hc ht hct
      have hih := ih (for3 n t c) hf2 (by omega)
      simp only [cfLoop, specTrace, if_neg hct, pyTruthy, Bool.not_true,
        Bool.false_eq_true, if_false]
      rw [hih, hhop]

/-- Python `list.index` returns an index inside the list. -/
lemma idxOf_lt : ∀ {l : List (List Char)} {x : List Char} {i : Nat},
    idxOf l x = some i → i < l.length := by
  intro l
  induction l with
  | nil => intro x i h; simp [idxOf] at h
  | cons y ys ih =>
    intro x i h
    simp only [idxOf] at h
    by_cases hyx : y = x
    · rw [if_pos hyx] at h
      have h0 : i = 0 := (Option.some_inj.mp h).symm
      simp [h0]
    · rw [if_neg hyx] at h
      cases hh : idxOf ys x with
      | none => rw [hh] at h; simp at h
      | some j =>
        rw [hh] at h
        simp only [Option.map_some'] at h
        have hj := ih hh
        have hji : j + 1 = i := Option.some_inj.mp h
        simp [← hji]
        omega

/-- A member of the list has an index (`list.index` does not raise). -/
lemma idxOf_mem_some : ∀ {l : List (List Char)} {x : List Char},
    x ∈ l → ∃ i, idxOf l x = some i := by
  intro l
  induction l with
  | nil => intro x h; simp at h
  | cons y ys ih =>
    intro x h
    by_cases hyx : y = x
    · exact ⟨0, by simp [idxOf, if_pos hyx]⟩
    · have hx : x ∈ ys := by
        rcases List.mem_cons.mp h with rfl | hx
        · exact absurd rfl hyx
        · exact hx
      obtain ⟨j, hj⟩ := ih hx
      exact ⟨j + 1, by simp [idxOf, if_neg hyx, hj]⟩

/-- C10: in `change_filter` the result of `_change_filter_to_id` is tested
without being awaited; the un-awaited coroutine object is truthy, so the
step-failure branches are unreachable: for every target name in the cached
filter list and every valid current position, `change_filter` returns true
regardless of the move oracle (i.e. of whether the position readback would
ever match) and of the `force_forward` flag. -/
theorem c10_change_filter_true (filters : List (List Char)) (cur0 : Nat)
    (name : List Char) (ff : Bool) (move : Nat → PyCoroutine)
    (hmem : name ∈ filters) (hcur : cur0 < filters.length) :
    ∃ tr, change_filter filters cur0 name ff move = some (true, tr) := by
  obtain ⟨fid, hfid⟩ := idxOf_mem_some hmem
  have hlt := idxOf_lt hfid
  unfold change_filter
  simp only [hfid]
  by_cases heq : fid = cur0
  · rw [if_pos heq]
    exact ⟨[], rfl⟩
  · rw [if_neg heq]
    cases ff with
    | true =>
      have hloop := cfLoop_spec filters.length fid move hlt
        (filters.length + 1) cur0 hcur (by have := fDist_lt hlt hcur; omega)
      simp only [if_true, hloop]
      exact ⟨specTrace filters.length fid (filters.length + 1) cur0, rfl⟩
    | false =>
      simp only [Bool.false_eq_true, if_false, pyTruthy, if_true]
      exact ⟨[fid], rfl⟩

/-- Witness for C10: target two positions behind the current one, with a
move oracle whose awaited value would always be `False`. -/
theorem c10_witness :
    ("f1".toList ∈ filters6) ∧ 2 < filters6.length ∧
    ∃ tr, change_filter filters6 2 ("f1".toList) true coroFalse =
      some (true, tr) :=
  ⟨by decide, by decide,
   c10_change_filter_true filters6 2 _ true coroFalse (by decide) (by decide)⟩

/-- C1 amended: with `forceForward`, each commanded step advances the wheel
forward by the minimum of three and the remaining forward distance
(wrapping modulo the wheel size, stopping exactly at the target, never
passing it and never moving backward) — not by exactly one.  In
particular, moving from index 4 to index 1 on a 6-position wheel commands
index 1 directly in a single step (commanded sequence `[1]`), rather than
visiting 5, 0, 1. -/
theorem c1_amended :
    (∀ (filters : List (List Char)) (cur0 : Nat) (name : List Char)
        (move : Nat → PyCoroutine) (fid : Nat),
      idxOf filters name = some fid → cur0 < filters.length → fid ≠ cur0 →
      change_filter filters cur0 name true move =
        some (true, specTrace filters.length fid (filters.length + 1) cur0)) ∧
    change_filter filters6 4 ("f1".toList) true coroTrue = some (true, [1]) := by
  constructor
  · intro filters cur0 name move fid hfid hcur hne
    have hlt := idxOf_lt hfid
    unfold change_filter
    simp only [hfid]
    rw [if_neg hne]
    have hloop := cfLoop_spec filters.length fid move hlt
      (filters.length + 1) cur0 hcur (by have := fDist_lt hlt hcur; omega)
    simp only [if_true, hloop]
  · rfl

/-- Witness for C1 amended: from index 0 to index 5 on the 6-position wheel
the commanded sequence is the hop trace (3, then 5). -/
theorem c1_amended_witness :
    idxOf filters6 ("f5".toList) = some 5 ∧ 0 < filters6.length ∧ 5 ≠ 0 ∧
    (change_filter filters6 0 ("f5".toList) true coroTrue =
      some (true, specTrace filters6.length 5 (filters6.length + 1) 0) ∧
     specTrace filters6.length 5 (filters6.length + 1) 0 = [3, 5]) :=
  ⟨by decide, by decide, by decide,
   c1_amended.1 filters6 0 _ coroTrue 5 (by decide) (by decide) (by decide),
   by decide⟩

end Pilar
